import Mathlib

/-!
Verification of the Advanced-Password-Generator repository.

The Python source (`config.py`, `generator.py`, `utils.py`) is shallowly
embedded below.  Strings are `List Char`; the `secrets` entropy source is
modelled by an arbitrary stream of natural numbers (`RandState`): every
call that consumes randomness reads the next stream value, so a theorem
quantified over all streams covers every possible sequence of draws.
-/

namespace PG

/-- `config.py`: `CHARS_LOWERCASE = string.ascii_lowercase`. -/
def CHARS_LOWERCASE : List Char := "abcdefghijklmnopqrstuvwxyz".toList

/-- `config.py`: `CHARS_UPPERCASE = string.ascii_uppercase`. -/
def CHARS_UPPERCASE : List Char := "ABCDEFGHIJKLMNOPQRSTUVWXYZ".toList

/-- `config.py`: `CHARS_DIGITS = string.digits`. -/
def CHARS_DIGITS : List Char := "0123456789".toList

/-- Code points of `string.punctuation` (ASCII 33-47, 58-64, 91-96, 123-126). -/
def punctCode (n : Nat) : Bool :=
  (33 ≤ n && n ≤ 47) || (58 ≤ n && n ≤ 64) || (91 ≤ n && n ≤ 96) || (123 ≤ n && n ≤ 126)

/-- `config.py`: `CHARS_SYMBOLS = string.punctuation` (the 32 ASCII punctuation
characters, given here by their code points). -/
def CHARS_SYMBOLS : List Char := ((List.range 127).filter punctCode).map Char.ofNat

/-- `config.py`: `AMBIGUOUS_CHARS = "lIO01"`. -/
def AMBIGUOUS_CHARS : List Char := "lIO01".toList

/-- The entropy source (`secrets`): an arbitrary stream of naturals together
with a cursor.  Each draw consumes one stream value. -/
structure RandState where
  stream : Nat → Nat
  idx : Nat

/-- Consume one value from the entropy stream. -/
def next (s : RandState) : Nat × RandState :=
  (s.stream s.idx, ⟨s.stream, s.idx + 1⟩)

/-- `secrets.choice(l)`: pick one element of `l`, the index chosen by the
entropy stream (reduced mod the length, so every element is reachable). -/
def choice {α : Type} [Inhabited α] (l : List α) (s : RandState) : α × RandState :=
  let p := next s
  (l.getD (p.1 % l.length) default, p.2)

/-- `m` successive `secrets.choice(l)` draws (a `for _ in range(m)` append loop). -/
def drawN {α : Type} [Inhabited α] (l : List α) : Nat → RandState → List α × RandState
  | 0, s => ([], s)
  | m + 1, s =>
    let p := choice l s
    let q := drawN l m p.2
    (p.1 :: q.1, q.2)

/-- Models `secrets.SystemRandom().shuffle`: a permutation of the list chosen
by the entropy stream (extraction form of Fisher-Yates: repeatedly pick a
remaining element at a stream-chosen index).  Only the fact that the result is
a permutation of the input is relied upon. -/
def shuffleGo {α : Type} [Inhabited α] : Nat → List α → RandState → List α × RandState
  | 0, l, s => (l, s)
  | _ + 1, [], s => ([], s)
  | fuel + 1, x :: xs, s =>
    let p := next s
    let i := p.1 % (x :: xs).length
    let c := (x :: xs).getD i default
    let rest := (x :: xs).eraseIdx i
    let q := shuffleGo fuel rest p.2
    (c :: q.1, q.2)

/-- Shuffle an entire list. -/
def shuffle {α : Type} [Inhabited α] (l : List α) (s : RandState) : List α × RandState :=
  shuffleGo l.length l s

/-- The configuration of `generate_random_password` (its keyword parameters).
`length` is a Python `int`, hence `Int`; the per-class minima are the
non-negative minimum counts of the data model. -/
structure GenConfig where
  length : Int
  use_lower : Bool
  use_upper : Bool
  use_digits : Bool
  use_symbols : Bool
  exclude_ambiguous : Bool
  min_lower : Nat
  min_upper : Nat
  min_digits : Nat
  min_symbols : Nat
  deriving DecidableEq

/-- Outcome of one generation call: `failure` is the `return None` of the
error paths; `accepted` is a normal return from inside the retry loop;
`degraded` is the return after the retry cap is exhausted (the code prints a
warning and returns the last attempt). -/
inductive GenResult where
  | failure : GenResult
  | accepted : List Char → GenResult
  | degraded : List Char → GenResult
  deriving DecidableEq

/-- `generator.py` lines 50: `use_lower or use_upper or use_digits or use_symbols`. -/
def anyClassEnabled (cfg : GenConfig) : Bool :=
  cfg.use_lower || cfg.use_upper || cfg.use_digits || cfg.use_symbols

/-- `generator.py` lines 54-65: the merged character pool, ambiguous characters
removed when requested. -/
def poolOf (cfg : GenConfig) : List Char :=
  let p :=
    (if cfg.use_lower then CHARS_LOWERCASE else []) ++
    (if cfg.use_upper then CHARS_UPPERCASE else []) ++
    (if cfg.use_digits then CHARS_DIGITS else []) ++
    (if cfg.use_symbols then CHARS_SYMBOLS else [])
  if cfg.exclude_ambiguous then p.filter (fun c => !(AMBIGUOUS_CHARS.contains c)) else p

/-- `generator.py` line 72: `min_lower + min_upper + min_digits + min_symbols`. -/
def totalMinRequired (cfg : GenConfig) : Nat :=
  cfg.min_lower + cfg.min_upper + cfg.min_digits + cfg.min_symbols

/-- One `if use_X: for _ in range(min_X): password_chars.append(secrets.choice(CHARS_X))`
block of `generator.py` lines 81-92. -/
def minDraw (use : Bool) (alpha : List Char) (m : Nat) (s : RandState) :
    List Char × RandState :=
  if use then drawN alpha m s else ([], s)

/-- `generator.py` lines 77-101 (and the identical lines 118-139): build one
candidate: for each *enabled* class draw `min_X` characters from that class's
own (unfiltered) alphabet, fill up to `length` from the merged pool, then
shuffle and join. -/
def buildCandidate (cfg : GenConfig) (pool : List Char) (s : RandState) :
    List Char × RandState :=
  let a := minDraw cfg.use_lower CHARS_LOWERCASE cfg.min_lower s
  let b := minDraw cfg.use_upper CHARS_UPPERCASE cfg.min_upper a.2
  let c := minDraw cfg.use_digits CHARS_DIGITS cfg.min_digits b.2
  let d := minDraw cfg.use_symbols CHARS_SYMBOLS cfg.min_symbols c.2
  let base := a.1 ++ b.1 ++ c.1 ++ d.1
  let remaining := (cfg.length - (base.length : Int)).toNat
  let fill := drawN pool remaining d.2
  shuffle (base ++ fill.1) fill.2

/-- Whether an optional checker callback rejects the candidate
(`avoid_..._func and avoid_..._func(password)`). -/
def rejects (ck : Option (List Char → Bool)) (p : List Char) : Bool :=
  match ck with
  | none => false
  | some f => f p

/-- `generator.py` lines 108-112 / 185-189: the `is_valid` computation of one
loop iteration (pattern checker first, then repetition checker). -/
def validOK (pf rf : Option (List Char → Bool)) (p : List Char) : Bool :=
  !(rejects pf p) && !(rejects rf p)

/-- `generator.py` lines 107-143: the retry loop of `generate_random_password`.
`fuel` is `max_attempts - attempts`; `cand` is the current candidate.  Returns
the result together with the number of candidate re-productions performed
inside the loop and the number of validator runs.  When the fuel runs out the
code falls through to the warning `print` and returns the last candidate
(which was produced by the final loop iteration and never validated). -/
def genLoop (pf rf : Option (List Char → Bool))
    (build : RandState → List Char × RandState) :
    Nat → List Char → RandState → GenResult × Nat × Nat
  | 0, cand, _ => (GenResult.degraded cand, 0, 0)
  | fuel + 1, cand, s =>
    if validOK pf rf cand then (GenResult.accepted cand, 0, 1)
    else
      let p := build s
      let r := genLoop pf rf build fuel p.1 p.2
      (r.1, r.2.1 + 1, r.2.2 + 1)

/-- `generator.py` lines 30-143, `generate_random_password`.  Returns the
result together with the total number of candidate productions (the initial
build plus every in-loop rebuild) and the number of validator runs. -/
def generate_random_password (cfg : GenConfig) (pf rf : Option (List Char → Bool))
    (s : RandState) : GenResult × Nat × Nat :=
  if !anyClassEnabled cfg then (GenResult.failure, 0, 0)
  else
    let pool := poolOf cfg
    if pool.isEmpty then (GenResult.failure, 0, 0)
    else if ((totalMinRequired cfg : Int) > cfg.length) then (GenResult.failure, 0, 0)
    else
      let c0 := buildCandidate cfg pool s
      let r := genLoop pf rf (buildCandidate cfg pool) 100 c0.1 c0.2
      (r.1, r.2.1 + 1, r.2.2)

/-- Python `str.capitalize()`: first character uppercased, the rest lowercased. -/
def pyCapitalize (w : List Char) : List Char :=
  match w with
  | [] => []
  | c :: cs => c.toUpper :: cs.map Char.toLower

/-- `generator.py` lines 169-181: build one passphrase attempt: draw
`word_count` words, optionally capitalize each, optionally append one digit
and/or one symbol as extra one-character words, and shuffle when anything was
appended. -/
def buildPhrase (wordlist : List (List Char)) (word_count : Nat)
    (capitalize_words add_number add_symbol : Bool) (s : RandState) :
    List (List Char) × RandState :=
  let d0 := drawN wordlist word_count s
  let ws0 := if capitalize_words then d0.1.map pyCapitalize else d0.1
  let st1 :=
    if add_number then
      let p := choice CHARS_DIGITS d0.2
      (ws0 ++ [[p.1]], p.2)
    else (ws0, d0.2)
  let st2 :=
    if add_symbol then
      let p := choice CHARS_SYMBOLS st1.2
      (st1.1 ++ [[p.1]], p.2)
    else st1
  if add_number || add_symbol then shuffle st2.1 st2.2 else st2

/-- `generator.py` lines 166-197: the passphrase retry loop.  Each iteration
builds a phrase, joins it with the delimiter and validates it; after the cap
the last (validated and rejected) phrase is returned with the warning.
Returns the result with the number of phrase productions and the number of
validator runs (one per production: validation follows every build). -/
def phraseLoop (pf rf : Option (List Char → Bool))
    (build : RandState → List (List Char) × RandState) (delimiter : List Char) :
    Nat → RandState → List Char → GenResult × Nat × Nat
  | 0, _, last => (GenResult.degraded last, 0, 0)
  | fuel + 1, s, _ =>
    let b := build s
    let joined := List.intercalate delimiter b.1
    if validOK pf rf joined then (GenResult.accepted joined, 1, 1)
    else
      let r := phraseLoop pf rf build delimiter fuel b.2 joined
      (r.1, r.2.1 + 1, r.2.2 + 1)

/-- `generator.py` lines 146-197, `generate_passphrase`.  The wordlist is the
`self.wordlist` field (empty when loading failed).  Returns the result with
the number of phrase productions and the number of validator runs. -/
def generate_passphrase (wordlist : List (List Char)) (word_count : Int)
    (delimiter : List Char) (capitalize_words add_number add_symbol : Bool)
    (pf rf : Option (List Char → Bool)) (s : RandState) : GenResult × Nat × Nat :=
  if wordlist.isEmpty then (GenResult.failure, 0, 0)
  else if word_count ≤ 0 then (GenResult.failure, 0, 0)
  else
    phraseLoop pf rf
      (buildPhrase wordlist word_count.toNat capitalize_words add_number add_symbol)
      delimiter 100 s []

/-- `utils.py` lines 88-99, `check_for_consecutive_repetitions`: reject when
some window of `max_consecutive + 1` consecutive characters are all equal;
a threshold below 1 disables the check. -/
def check_for_consecutive_repetitions (password : List Char)
    (max_consecutive : Int := 2) : Bool :=
  if max_consecutive < 1 then false
  else
    let k := max_consecutive.toNat
    (List.range (password.length - k)).any (fun i =>
      (List.range (k + 1)).all (fun j => password.getD (i + j) ' ' == password.getD i ' '))

/-- The five character categories of `calculate_entropy`. -/
inductive CharCat where
  | lowercase : CharCat
  | uppercase : CharCat
  | digit : CharCat
  | symbol : CharCat
  | other : CharCat
  deriving DecidableEq, Fintype

/-- `utils.py` lines 21-31: classify one character. -/
def classify (c : Char) : CharCat :=
  if 'a' ≤ c ∧ c ≤ 'z' then CharCat.lowercase
  else if 'A' ≤ c ∧ c ≤ 'Z' then CharCat.uppercase
  else if '0' ≤ c ∧ c ≤ '9' then CharCat.digit
  else if c ∈ CHARS_SYMBOLS then CharCat.symbol
  else CharCat.other

/-- The fixed alphabet size the estimator attributes to each category. -/
def catSize : CharCat → Nat
  | CharCat.lowercase => 26
  | CharCat.uppercase => 26
  | CharCat.digit => 10
  | CharCat.symbol => 32
  | CharCat.other => 50

/-- `utils.py` lines 33-43: the estimated charset size, summing the fixed
size of each category present in the password. -/
def estimated_charset_size (p : List Char) : Nat :=
  (if CharCat.lowercase ∈ p.map classify then 26 else 0) +
  (if CharCat.uppercase ∈ p.map classify then 26 else 0) +
  (if CharCat.digit ∈ p.map classify then 10 else 0) +
  (if CharCat.symbol ∈ p.map classify then 32 else 0) +
  (if CharCat.other ∈ p.map classify then 50 else 0)

/-- `utils.py` lines 12-48, `calculate_entropy`.  The Python float result is
idealised as a real number. -/
noncomputable def calculate_entropy (p : List Char) : ℝ :=
  if p = [] then 0
  else if estimated_charset_size p = 0 then 0
  else (p.length : ℝ) * Real.logb 2 (estimated_charset_size p)

/-- Number of characters of `p` lying in the alphabet `alpha`
(re-classification of the output against a class alphabet). -/
def countIn (p alpha : List Char) : Nat :=
  (p.filter (fun c => alpha.contains c)).length

/-- A delimiter-separated segment that is a single digit. -/
def isSingleDigit (seg : List Char) : Bool :=
  match seg with
  | [d] => CHARS_DIGITS.contains d
  | _ => false

/-- Replace the `min_lower` field of a configuration. -/
def setMinLower (cfg : GenConfig) (m : Nat) : GenConfig :=
  ⟨cfg.length, cfg.use_lower, cfg.use_upper, cfg.use_digits, cfg.use_symbols,
    cfg.exclude_ambiguous, m, cfg.min_upper, cfg.min_digits, cfg.min_symbols⟩

/-- Replace the `min_upper` field of a configuration. -/
def setMinUpper (cfg : GenConfig) (m : Nat) : GenConfig :=
  ⟨cfg.length, cfg.use_lower, cfg.use_upper, cfg.use_digits, cfg.use_symbols,
    cfg.exclude_ambiguous, cfg.min_lower, m, cfg.min_digits, cfg.min_symbols⟩

/-- Replace the `min_digits` field of a configuration. -/
def setMinDigits (cfg : GenConfig) (m : Nat) : GenConfig :=
  ⟨cfg.length, cfg.use_lower, cfg.use_upper, cfg.use_digits, cfg.use_symbols,
    cfg.exclude_ambiguous, cfg.min_lower, cfg.min_upper, m, cfg.min_symbols⟩

/-- Replace the `min_symbols` field of a configuration. -/
def setMinSymbols (cfg : GenConfig) (m : Nat) : GenConfig :=
  ⟨cfg.length, cfg.use_lower, cfg.use_upper, cfg.use_digits, cfg.use_symbols,
    cfg.exclude_ambiguous, cfg.min_lower, cfg.min_upper, cfg.min_digits, m⟩

/-- The spec-side charset size: the sum of the fixed sizes over exactly the
classes present in the password, each counted once. -/
def presentCatSum (p : List Char) : Nat :=
  (([CharCat.lowercase, CharCat.uppercase, CharCat.digit, CharCat.symbol,
      CharCat.other].filter (fun t => decide (t ∈ p.map classify))).map catSize).sum

/-! ### Concrete inputs used by the witnesses and counterexamples -/

def streamZero : RandState := ⟨fun _ => 0, 0⟩

def streamEleven : RandState := ⟨fun _ => 11, 0⟩

def rejectAll : List Char → Bool := fun _ => true

def cfgC1 : GenConfig := ⟨4, true, false, false, false, false, 0, 0, 0, 0⟩

def cfgC2 : GenConfig := ⟨3, true, false, false, false, false, 2, 0, 0, 0⟩

def cfgC3 : GenConfig := ⟨1, true, false, false, false, true, 1, 0, 0, 0⟩

def cfgC3w : GenConfig := ⟨2, true, false, false, false, true, 0, 0, 0, 0⟩

def cfgC4 : GenConfig := ⟨1, true, false, false, false, false, 0, 0, 0, 0⟩

def cfgC5 : GenConfig := ⟨0, true, false, false, false, false, 0, 0, 0, 0⟩

def cfgC5neg : GenConfig := ⟨-3, true, true, true, true, false, 0, 0, 0, 0⟩

def cfgC6 : GenConfig := ⟨2, true, false, false, false, false, 0, 3, 0, 0⟩

def cfgC6z : GenConfig := ⟨2, true, false, false, false, false, 0, 0, 0, 0⟩

def cfgC6w : GenConfig := ⟨8, true, false, false, false, false, 0, 0, 0, 0⟩

def wlW : List (List Char) := ["apple".toList, "banana".toList]

/-! ### Basic lemmas about the entropy-source primitives -/

theorem getD_mem {α : Type} (l : List α) (d : α) (i : Nat) (h : i < l.length) :
    l.getD i d ∈ l := by
  rw [List.getD_eq_getElem l d h]
  exact List.getElem_mem h

theorem choice_mem {α : Type} [Inhabited α] (l : List α) (s : RandState) (h : l ≠ []) :
    (choice l s).1 ∈ l :=
  getD_mem l default _ (Nat.mod_lt _ (List.length_pos.mpr h))

theorem drawN_length {α : Type} [Inhabited α] (l : List α) :
    ∀ (m : Nat) (s : RandState), ((drawN l m s).1).length = m
  | 0, _ => rfl
  | m + 1, s => by simp [drawN, drawN_length l m]

theorem drawN_mem {α : Type} [Inhabited α] (l : List α) (h : l ≠ []) :
    ∀ (m : Nat) (s : RandState), ∀ c ∈ (drawN l m s).1, c ∈ l
  | 0, _ => by simp [drawN]
  | m + 1, s => by
    intro c hc
    simp only [drawN, List.mem_cons] at hc
    rcases hc with hc | hc
    · rw [hc]; exact choice_mem l s h
    · exact drawN_mem l h m _ c hc

theorem getD_cons_eraseIdx_perm {α : Type} (d : α) (l : List α) :
    ∀ i, i < l.length → List.Perm (l.getD i d :: l.eraseIdx i) l := by
  induction l with
  | nil => intro i h; simp at h
  | cons x xs ih =>
    intro i h
    cases i with
    | zero => simp
    | succ j =>
      have hj : j < xs.length := by simpa using h
      have hperm := ih j hj
      simp only [List.getD_cons_succ, List.eraseIdx_cons_succ]
      exact (List.Perm.swap x (xs.getD j d) (xs.eraseIdx j)).trans (hperm.cons x)

theorem shuffleGo_perm {α : Type} [Inhabited α] :
    ∀ (fuel : Nat) (l : List α) (s : RandState), l.length ≤ fuel →
      List.Perm (shuffleGo fuel l s).1 l := by
  intro fuel
  induction fuel with
  | zero =>
    intro l s h
    have hl : l = [] := List.length_eq_zero.mp (Nat.le_zero.mp h)
    subst hl
    exact List.Perm.refl _
  | succ fuel ih =>
    intro l s h
    match l with
    | [] => exact List.Perm.refl _
    | x :: xs =>
      have hi : (next s).1 % (x :: xs).length < (x :: xs).length :=
        Nat.mod_lt _ (Nat.succ_pos xs.length)
      have hp := getD_cons_eraseIdx_perm (default : α) (x :: xs) _ hi
      have hlen : ((x :: xs).eraseIdx ((next s).1 % (x :: xs).length)).length = xs.length := by
        have h2 := hp.length_eq
        simpa using h2
      have hrest : ((x :: xs).eraseIdx ((next s).1 % (x :: xs).length)).length ≤ fuel := by
        rw [hlen]
        have : xs.length + 1 ≤ fuel + 1 := by simpa using h
        omega
      have ihr := ih _ (next s).2 hrest
      exact (ihr.cons _).trans hp

theorem shuffle_perm {α : Type} [Inhabited α] (l : List α) (s : RandState) :
    List.Perm (shuffle l s).1 l :=
  shuffleGo_perm l.length l s (Nat.le_refl _)

theorem shuffle_length {α : Type} [Inhabited α] (l : List α) (s : RandState) :
    ((shuffle l s).1).length = l.length :=
  (shuffle_perm l s).length_eq

/-! ### Shape of one random-password candidate -/

theorem minDraw_length (use : Bool) (alpha : List Char) (m : Nat) (s : RandState) :
    ((minDraw use alpha m s).1).length = if use then m else 0 := by
  unfold minDraw
  split
  · exact drawN_length _ _ _
  · rfl

theorem minDraw_mem (use : Bool) (alpha : List Char) (m : Nat) (s : RandState)
    (h : alpha ≠ []) : ∀ c ∈ (minDraw use alpha m s).1, c ∈ alpha := by
  unfold minDraw
  split
  · exact drawN_mem _ h _ _
  · simp

/-- Every candidate built by `buildCandidate` is a permutation of four
per-class minimum blocks followed by the pool fill, with the lengths and
alphabets dictated by the code. -/
theorem buildCandidate_shape (cfg : GenConfig) (pool : List Char) (s : RandState)
    (hpool : pool ≠ []) :
    ∃ la lb lc ld lf : List Char,
      List.Perm ((buildCandidate cfg pool s).1) (la ++ lb ++ lc ++ ld ++ lf) ∧
      la.length = (if cfg.use_lower then cfg.min_lower else 0) ∧
      (∀ c ∈ la, c ∈ CHARS_LOWERCASE) ∧
      lb.length = (if cfg.use_upper then cfg.min_upper else 0) ∧
      (∀ c ∈ lb, c ∈ CHARS_UPPERCASE) ∧
      lc.length = (if cfg.use_digits then cfg.min_digits else 0) ∧
      (∀ c ∈ lc, c ∈ CHARS_DIGITS) ∧
      ld.length = (if cfg.use_symbols then cfg.min_symbols else 0) ∧
      (∀ c ∈ ld, c ∈ CHARS_SYMBOLS) ∧
      lf.length = (cfg.length - ((la ++ lb ++ lc ++ ld).length : Int)).toNat ∧
      (∀ c ∈ lf, c ∈ pool) := by
  obtain ⟨la, s1, hA⟩ : ∃ x y, minDraw cfg.use_lower CHARS_LOWERCASE cfg.min_lower s = (x, y) :=
    ⟨_, _, rfl⟩
  obtain ⟨lb, s2, hB⟩ : ∃ x y, minDraw cfg.use_upper CHARS_UPPERCASE cfg.min_upper s1 = (x, y) :=
    ⟨_, _, rfl⟩
  obtain ⟨lc, s3, hC⟩ : ∃ x y, minDraw cfg.use_digits CHARS_DIGITS cfg.min_digits s2 = (x, y) :=
    ⟨_, _, rfl⟩
  obtain ⟨ld, s4, hD⟩ : ∃ x y, minDraw cfg.use_symbols CHARS_SYMBOLS cfg.min_symbols s3 = (x, y) :=
    ⟨_, _, rfl⟩
  obtain ⟨lf, s5, hF⟩ : ∃ x y,
      drawN pool (cfg.length - (((la ++ lb ++ lc ++ ld).length : Nat) : Int)).toNat s4 = (x, y) :=
    ⟨_, _, rfl⟩
  refine ⟨la, lb, lc, ld, lf, ?_, ?_, ?_, ?_, ?_, ?_, ?_, ?_, ?_, ?_, ?_⟩
  · unfold buildCandidate
    simp only [hA, hB, hC, hD, hF]
    simpa [List.append_assoc] using shuffle_perm (la ++ lb ++ lc ++ ld ++ lf) s5
  · have := minDraw_length cfg.use_lower CHARS_LOWERCASE cfg.min_lower s
    rw [hA] at this
    exact this
  · have := minDraw_mem cfg.use_lower CHARS_LOWERCASE cfg.min_lower s (by decide)
    rw [hA] at this
    exact this
  · have := minDraw_length cfg.use_upper CHARS_UPPERCASE cfg.min_upper s1
    rw [hB] at this
    exact this
  · have := minDraw_mem cfg.use_upper CHARS_UPPERCASE cfg.min_upper s1 (by decide)
    rw [hB] at this
    exact this
  · have := minDraw_length cfg.use_digits CHARS_DIGITS cfg.min_digits s2
    rw [hC] at this
    exact this
  · have := minDraw_mem cfg.use_digits CHARS_DIGITS cfg.min_digits s2 (by decide)
    rw [hC] at this
    exact this
  · have := minDraw_length cfg.use_symbols CHARS_SYMBOLS cfg.min_symbols s3
    rw [hD] at this
    exact this
  · have := minDraw_mem cfg.use_symbols CHARS_SYMBOLS cfg.min_symbols s3 (by decide)
    rw [hD] at this
    exact this
  · have := drawN_length pool (cfg.length - (((la ++ lb ++ lc ++ ld).length : Nat) : Int)).toNat s4
    rw [hF] at this
    exact this
  · have := drawN_mem pool hpool (cfg.length - (((la ++ lb ++ lc ++ ld).length : Nat) : Int)).toNat s4
    rw [hF] at this
    exact this

/-- When the sum of minima fits in the length, every candidate has exactly
`length` characters. -/
theorem buildCandidate_length (cfg : GenConfig) (pool : List Char) (s : RandState)
    (hpool : pool ≠ []) (h : (totalMinRequired cfg : Int) ≤ cfg.length) :
    ((buildCandidate cfg pool s).1).length = cfg.length.toNat := by
  obtain ⟨la, lb, lc, ld, lf, hperm, hla, _, hlb, _, hlc, _, hld, _, hlf, _⟩ :=
    buildCandidate_shape cfg pool s hpool
  have hlen := hperm.length_eq
  simp only [List.length_append] at hlen hlf
  have hbase : la.length + lb.length + lc.length + ld.length ≤ totalMinRequired cfg := by
    unfold totalMinRequired
    rw [hla, hlb, hlc, hld]
    split_ifs <;> omega
  omega

/-! ### The retry loop -/

theorem genLoop_bounds (pf rf : Option (List Char → Bool))
    (build : RandState → List Char × RandState) :
    ∀ (fuel : Nat) (cand : List Char) (s : RandState),
      (genLoop pf rf build fuel cand s).2.1 ≤ fuel ∧
      (genLoop pf rf build fuel cand s).2.2 ≤ fuel ∧
      (genLoop pf rf build fuel cand s).1 ≠ GenResult.failure ∧
      (∀ q, (genLoop pf rf build fuel cand s).1 = GenResult.accepted q →
        validOK pf rf q = true) ∧
      (∀ q, (genLoop pf rf build fuel cand s).1 = GenResult.degraded q →
        (genLoop pf rf build fuel cand s).2.1 = fuel ∧
        (genLoop pf rf build fuel cand s).2.2 = fuel) ∧
      (∀ q, (genLoop pf rf build fuel cand s).1 = GenResult.accepted q →
        (genLoop pf rf build fuel cand s).2.1 < fuel) := by
  intro fuel
  induction fuel with
  | zero =>
    intro cand s
    refine ⟨Nat.le_refl 0, Nat.le_refl 0, by simp [genLoop], ?_, ?_, ?_⟩
    · intro q hq
      simp [genLoop] at hq
    · intro q hq
      exact ⟨rfl, rfl⟩
    · intro q hq
      simp [genLoop] at hq
  | succ fuel ih =>
    intro cand s
    by_cases hv : validOK pf rf cand = true
    · refine ⟨?_, ?_, ?_, ?_, ?_, ?_⟩ <;> simp only [genLoop, if_pos hv]
      · omega
      · omega
      · simp
      · intro q hq
        simp only [GenResult.accepted.injEq] at hq
        rw [← hq]
        exact hv
      · intro q hq
        simp at hq
      · intro q hq
        omega
    · obtain ⟨ih1, ih2, ih3, ih4, ih5, ih6⟩ := ih (build s).1 (build s).2
      refine ⟨?_, ?_, ?_, ?_, ?_, ?_⟩ <;> simp only [genLoop, if_neg hv]
      · omega
      · omega
      · exact ih3
      · exact ih4
      · intro q hq
        obtain ⟨e1, e2⟩ := ih5 q hq
        omega
      · intro q hq
        have := ih6 q hq
        omega

theorem genLoop_accepted_build (pf rf : Option (List Char → Bool))
    (build : RandState → List Char × RandState) :
    ∀ (fuel : Nat) (cand : List Char) (s : RandState), (∃ t, cand = (build t).1) →
      ∀ q, (genLoop pf rf build fuel cand s).1 = GenResult.accepted q →
        (∃ t, q = (build t).1) ∧ validOK pf rf q = true := by
  intro fuel
  induction fuel with
  | zero =>
    intro cand s _ q hq
    simp [genLoop] at hq
  | succ fuel ih =>
    intro cand s hcand q hq
    by_cases hv : validOK pf rf cand = true
    · simp only [genLoop, if_pos hv, GenResult.accepted.injEq] at hq
      rw [← hq]
      exact ⟨hcand, hv⟩
    · simp only [genLoop, if_neg hv] at hq
      exact ih (build s).1 (build s).2 ⟨s, rfl⟩ q hq

/-- Characterisation of an `accepted` return of `generate_random_password`:
all three preconditions passed, the password is a candidate built by the
candidate-production step, and it passed the validator pipeline. -/
theorem generate_accepted_spec (cfg : GenConfig) (pf rf : Option (List Char → Bool))
    (s : RandState) (p : List Char)
    (h : (generate_random_password cfg pf rf s).1 = GenResult.accepted p) :
    anyClassEnabled cfg = true ∧ poolOf cfg ≠ [] ∧
      (totalMinRequired cfg : Int) ≤ cfg.length ∧
      validOK pf rf p = true ∧
      ∃ t, p = (buildCandidate cfg (poolOf cfg) t).1 := by
  unfold generate_random_password at h
  by_cases h1 : (!anyClassEnabled cfg) = true
  · rw [if_pos h1] at h
    simp at h
  · rw [if_neg h1] at h
    by_cases h2 : (poolOf cfg).isEmpty = true
    · rw [if_pos h2] at h
      simp at h
    · rw [if_neg h2] at h
      by_cases h3 : ((totalMinRequired cfg : Int) > cfg.length)
      · rw [if_pos h3] at h
        simp at h
      · rw [if_neg h3] at h
        have hany : anyClassEnabled cfg = true := by
          simpa using h1
        have hpool : poolOf cfg ≠ [] := by
          intro he
          exact h2 (by simp [he])
        have hmin : (totalMinRequired cfg : Int) ≤ cfg.length := by omega
        obtain ⟨ht, hvq⟩ := genLoop_accepted_build pf rf (buildCandidate cfg (poolOf cfg)) 100
          (buildCandidate cfg (poolOf cfg) s).1 (buildCandidate cfg (poolOf cfg) s).2 ⟨s, rfl⟩ p h
        exact ⟨hany, hpool, hmin, hvq, ht⟩

theorem phraseLoop_bounds (pf rf : Option (List Char → Bool))
    (build : RandState → List (List Char) × RandState) (delimiter : List Char) :
    ∀ (fuel : Nat) (s : RandState) (last : List Char),
      (phraseLoop pf rf build delimiter fuel s last).2.1 ≤ fuel ∧
      (phraseLoop pf rf build delimiter fuel s last).2.2 =
        (phraseLoop pf rf build delimiter fuel s last).2.1 ∧
      (phraseLoop pf rf build delimiter fuel s last).1 ≠ GenResult.failure ∧
      (∀ q, (phraseLoop pf rf build delimiter fuel s last).1 = GenResult.accepted q →
        validOK pf rf q = true ∧ ∃ t, q = List.intercalate delimiter (build t).1) ∧
      (∀ q, (phraseLoop pf rf build delimiter fuel s last).1 = GenResult.degraded q →
        (phraseLoop pf rf build delimiter fuel s last).2.1 = fuel) := by
  intro fuel
  induction fuel with
  | zero =>
    intro s last
    refine ⟨Nat.le_refl 0, rfl, by simp [phraseLoop], ?_, ?_⟩
    · intro q hq
      simp [phraseLoop] at hq
    · intro q hq
      rfl
  | succ fuel ih =>
    intro s last
    by_cases hv : validOK pf rf (List.intercalate delimiter (build s).1) = true
    · have he : phraseLoop pf rf build delimiter (fuel + 1) s last =
          (GenResult.accepted (List.intercalate delimiter (build s).1), 1, 1) := by
        simp [phraseLoop, hv]
      rw [he]
      dsimp only
      refine ⟨by omega, rfl, by simp, ?_, ?_⟩
      · intro q hq
        simp only [GenResult.accepted.injEq] at hq
        rw [← hq]
        exact ⟨hv, s, rfl⟩
      · intro q hq
        simp at hq
    · obtain ⟨ih1, ih2, ih3, ih4, ih5⟩ := ih (build s).2 (List.intercalate delimiter (build s).1)
      refine ⟨?_, ?_, ?_, ?_, ?_⟩ <;> simp only [phraseLoop, if_neg hv]
      · omega
      · omega
      · exact ih3
      · exact ih4
      · intro q hq
        have := ih5 q hq
        omega

/-- A degraded passphrase return (with at least one loop iteration available)
is the joined candidate of some build, and it was validated and rejected. -/
theorem phraseLoop_degraded (pf rf : Option (List Char → Bool))
    (build : RandState → List (List Char) × RandState) (delimiter : List Char) :
    ∀ (fuel : Nat) (s : RandState) (last : List Char) (q : List Char),
      (phraseLoop pf rf build delimiter (fuel + 1) s last).1 = GenResult.degraded q →
        validOK pf rf q = false ∧ ∃ t, q = List.intercalate delimiter (build t).1 := by
  intro fuel
  induction fuel with
  | zero =>
    intro s last q hq
    by_cases hv : validOK pf rf (List.intercalate delimiter (build s).1) = true
    · simp [phraseLoop, if_pos hv] at hq
    · simp only [phraseLoop, if_neg hv, GenResult.degraded.injEq] at hq
      rw [← hq]
      exact ⟨Bool.eq_false_iff.mpr hv, s, rfl⟩
  | succ fuel ih =>
    intro s last q hq
    by_cases hv : validOK pf rf (List.intercalate delimiter (build s).1) = true
    · simp [phraseLoop, if_pos hv] at hq
    · simp only [phraseLoop, if_neg hv] at hq
      exact ih (build s).2 (List.intercalate delimiter (build s).1) q hq

/-- `generate_random_password` returns the immediate-failure value exactly when
one of the three preconditions is violated. -/
theorem generate_failure_iff (cfg : GenConfig) (pf rf : Option (List Char → Bool))
    (s : RandState) :
    generate_random_password cfg pf rf s = (GenResult.failure, 0, 0) ↔
      (anyClassEnabled cfg = false ∨ poolOf cfg = [] ∨
        cfg.length < (totalMinRequired cfg : Int)) := by
  constructor
  · intro h
    by_contra hc
    push_neg at hc
    obtain ⟨ha, hp, hm⟩ := hc
    unfold generate_random_password at h
    rw [if_neg (by simp [ha]), if_neg (by simp [hp]), if_neg (by omega)] at h
    have h2 := congrArg (fun x => x.2.1) h
    simp at h2
  · intro h
    unfold generate_random_password
    by_cases ha : anyClassEnabled cfg = false
    · rw [if_pos (by simp [ha])]
    · rw [if_neg (by simp at ha ⊢; exact ha)]
      by_cases hp : poolOf cfg = []
      · rw [if_pos (by simp [hp])]
      · rw [if_neg (by simp [hp])]
        have hm : cfg.length < (totalMinRequired cfg : Int) := by tauto
        rw [if_pos (by omega)]

/-- `generate_passphrase` returns the immediate-failure value exactly when the
wordlist is empty or the word count is non-positive. -/
theorem passphrase_failure_iff (wl : List (List Char)) (wc : Int) (d : List Char)
    (cw an asym : Bool) (pf rf : Option (List Char → Bool)) (s : RandState) :
    generate_passphrase wl wc d cw an asym pf rf s = (GenResult.failure, 0, 0) ↔
      (wl = [] ∨ wc ≤ 0) := by
  constructor
  · intro h
    by_contra hc
    push_neg at hc
    obtain ⟨hwl, hwc⟩ := hc
    unfold generate_passphrase at h
    rw [if_neg (by simp [hwl]), if_neg (by omega)] at h
    obtain ⟨-, -, hnf, -, -⟩ := phraseLoop_bounds pf rf
      (buildPhrase wl wc.toNat cw an asym) d 100 s []
    exact hnf (congrArg (fun x => x.1) h)
  · intro h
    unfold generate_passphrase
    by_cases hwl : wl = []
    · rw [if_pos (by simp [hwl])]
    · rw [if_neg (by simp [hwl])]
      have hwc : wc ≤ 0 := by tauto
      rw [if_pos (by omega)]

/-! ### Counting characters by class -/

theorem countIn_append (a b alpha : List Char) :
    countIn (a ++ b) alpha = countIn a alpha + countIn b alpha := by
  simp [countIn, List.filter_append]

theorem countIn_perm {a b : List Char} (h : List.Perm a b) (alpha : List Char) :
    countIn a alpha = countIn b alpha := by
  simp only [countIn, ← List.countP_eq_length_filter]
  exact h.countP_eq _

theorem countIn_of_all (l alpha : List Char) (h : ∀ c ∈ l, c ∈ alpha) :
    countIn l alpha = l.length := by
  unfold countIn
  rw [List.filter_eq_self.mpr]
  intro c hc
  simpa using h c hc

/-! ### Facts about the fixed alphabets (decided by computation) -/

theorem lower_not_upper : ∀ c ∈ CHARS_LOWERCASE, c ∉ CHARS_UPPERCASE := by decide

theorem digits_not_upper : ∀ c ∈ CHARS_DIGITS, c ∉ CHARS_UPPERCASE := by decide

theorem symbols_not_upper : ∀ c ∈ CHARS_SYMBOLS, c ∉ CHARS_UPPERCASE := by decide

theorem upper_not_lower : ∀ c ∈ CHARS_UPPERCASE, c ∉ CHARS_LOWERCASE := by decide

theorem digits_not_lower : ∀ c ∈ CHARS_DIGITS, c ∉ CHARS_LOWERCASE := by decide

theorem symbols_not_lower : ∀ c ∈ CHARS_SYMBOLS, c ∉ CHARS_LOWERCASE := by decide

theorem symbols_not_digit : ∀ c ∈ CHARS_SYMBOLS, c ∉ CHARS_DIGITS := by decide

theorem lower_not_symbol : ∀ c ∈ CHARS_LOWERCASE, c ∉ CHARS_SYMBOLS := by decide

theorem upper_not_symbol : ∀ c ∈ CHARS_UPPERCASE, c ∉ CHARS_SYMBOLS := by decide

theorem digits_not_symbol : ∀ c ∈ CHARS_DIGITS, c ∉ CHARS_SYMBOLS := by decide

theorem lower_not_digit : ∀ c ∈ CHARS_LOWERCASE, c ∉ CHARS_DIGITS := by decide

theorem upper_not_digit : ∀ c ∈ CHARS_UPPERCASE, c ∉ CHARS_DIGITS := by decide

/-- Membership in the merged pool comes from one of the enabled classes. -/
theorem mem_poolOf (cfg : GenConfig) (c : Char) (hc : c ∈ poolOf cfg) :
    (cfg.use_lower = true ∧ c ∈ CHARS_LOWERCASE) ∨
    (cfg.use_upper = true ∧ c ∈ CHARS_UPPERCASE) ∨
    (cfg.use_digits = true ∧ c ∈ CHARS_DIGITS) ∨
    (cfg.use_symbols = true ∧ c ∈ CHARS_SYMBOLS) := by
  have step : ∀ (b : Bool) (l : List Char), c ∈ (if b then l else []) → b = true ∧ c ∈ l := by
    intro b l h
    cases b
    · simp at h
    · exact ⟨rfl, by simpa using h⟩
  have hc2 : c ∈
      (if cfg.use_lower then CHARS_LOWERCASE else []) ++
      (if cfg.use_upper then CHARS_UPPERCASE else []) ++
      (if cfg.use_digits then CHARS_DIGITS else []) ++
      (if cfg.use_symbols then CHARS_SYMBOLS else []) := by
    unfold poolOf at hc
    by_cases hex : cfg.exclude_ambiguous = true
    · rw [if_pos hex] at hc
      exact (List.mem_filter.mp hc).1
    · rw [if_neg hex] at hc
      exact hc
  simp only [List.append_assoc, List.mem_append] at hc2
  rcases hc2 with h | h | h | h
  · exact Or.inl (step _ _ h)
  · exact Or.inr (Or.inl (step _ _ h))
  · exact Or.inr (Or.inr (Or.inl (step _ _ h)))
  · exact Or.inr (Or.inr (Or.inr (step _ _ h)))

/-- With `exclude_ambiguous` set, the merged pool contains no ambiguous character. -/
theorem poolOf_exclude (cfg : GenConfig) (hex : cfg.exclude_ambiguous = true)
    (c : Char) (hc : c ∈ poolOf cfg) : c ∉ AMBIGUOUS_CHARS := by
  unfold poolOf at hc
  rw [if_pos hex] at hc
  have h2 := (List.mem_filter.mp hc).2
  simpa using h2

/-! ### Claim C1 -/

/-- C1: for every configuration accepted by `generate_random_password`, every
password returned as accepted is a string of exactly `config.length`
characters.  (The preconditions need not be assumed: an accepted return
implies they all held.) -/
theorem c1_random_password_length (cfg : GenConfig) (pf rf : Option (List Char → Bool))
    (s : RandState) (p : List Char)
    (h : (generate_random_password cfg pf rf s).1 = GenResult.accepted p) :
    (p.length : Int) = cfg.length := by
  obtain ⟨-, hpool, hmin, -, t, hp⟩ := generate_accepted_spec cfg pf rf s p h
  rw [hp, buildCandidate_length cfg (poolOf cfg) t hpool hmin]
  omega

/-- C1 witness: a concrete run returning an accepted 4-character password. -/
theorem c1_witness : ((['a', 'a', 'a', 'a'] : List Char).length : Int) = cfgC1.length :=
  c1_random_password_length cfgC1 none none streamZero ['a', 'a', 'a', 'a'] (by decide)

/-! ### Claim C2 -/

/-- C2: any password returned as accepted contains at least `min_X` characters
of each enabled class `X`, membership determined by re-classifying each output
character against that class's alphabet. -/
theorem c2_minimum_counts (cfg : GenConfig) (pf rf : Option (List Char → Bool))
    (s : RandState) (p : List Char)
    (h : (generate_random_password cfg pf rf s).1 = GenResult.accepted p) :
    (cfg.use_lower = true → cfg.min_lower ≤ countIn p CHARS_LOWERCASE) ∧
    (cfg.use_upper = true → cfg.min_upper ≤ countIn p CHARS_UPPERCASE) ∧
    (cfg.use_digits = true → cfg.min_digits ≤ countIn p CHARS_DIGITS) ∧
    (cfg.use_symbols = true → cfg.min_symbols ≤ countIn p CHARS_SYMBOLS) := by
  obtain ⟨-, hpool, -, -, t, hp⟩ := generate_accepted_spec cfg pf rf s p h
  obtain ⟨la, lb, lc, ld, lf, hperm, hla, hma, hlb, hmb, hlc, hmc, hld, hmd, -, -⟩ :=
    buildCandidate_shape cfg (poolOf cfg) t hpool
  rw [hp]
  have hsplit : ∀ alpha : List Char,
      countIn ((buildCandidate cfg (poolOf cfg) t).1) alpha =
        countIn la alpha + countIn lb alpha + countIn lc alpha + countIn ld alpha +
          countIn lf alpha := by
    intro alpha
    rw [countIn_perm hperm alpha]
    simp only [countIn_append]
  refine ⟨?_, ?_, ?_, ?_⟩ <;> intro hu
  · have he : countIn la CHARS_LOWERCASE = cfg.min_lower := by
      rw [countIn_of_all la CHARS_LOWERCASE hma, hla, if_pos hu]
    have := hsplit CHARS_LOWERCASE
    omega
  · have he : countIn lb CHARS_UPPERCASE = cfg.min_upper := by
      rw [countIn_of_all lb CHARS_UPPERCASE hmb, hlb, if_pos hu]
    have := hsplit CHARS_UPPERCASE
    omega
  · have he : countIn lc CHARS_DIGITS = cfg.min_digits := by
      rw [countIn_of_all lc CHARS_DIGITS hmc, hlc, if_pos hu]
    have := hsplit CHARS_DIGITS
    omega
  · have he : countIn ld CHARS_SYMBOLS = cfg.min_symbols := by
      rw [countIn_of_all ld CHARS_SYMBOLS hmd, hld, if_pos hu]
    have := hsplit CHARS_SYMBOLS
    omega

/-- C2 witness: a concrete accepted password meets its lowercase minimum. -/
theorem c2_witness : cfgC2.min_lower ≤ countIn ['a', 'a', 'a'] CHARS_LOWERCASE :=
  (c2_minimum_counts cfgC2 none none streamZero ['a', 'a', 'a'] (by decide)).1 rfl

/-! ### Claim C3 -/

/-- C3 counterexample: with `exclude_ambiguous` set and `min_lower = 1`, the
guaranteed-minimum draw samples the *unfiltered* lowercase alphabet, so the
accepted password can be the ambiguous character `l`. -/
theorem c3_counterexample :
    cfgC3.exclude_ambiguous = true ∧
    (generate_random_password cfgC3 none none streamEleven).1 =
      GenResult.accepted ['l'] ∧
    'l' ∈ AMBIGUOUS_CHARS := by decide

/-- C3 amended: with `exclude_ambiguous` set, the accepted password contains no
ambiguous character *provided every enabled class's minimum is zero* (so that
every character is drawn from the filtered pool; minimum-guarantee draws use
the unfiltered class alphabets and can produce ambiguous characters). -/
theorem c3_amended (cfg : GenConfig) (pf rf : Option (List Char → Bool))
    (s : RandState) (p : List Char)
    (hex : cfg.exclude_ambiguous = true)
    (hl : cfg.use_lower = true → cfg.min_lower = 0)
    (hu : cfg.use_upper = true → cfg.min_upper = 0)
    (hd : cfg.use_digits = true → cfg.min_digits = 0)
    (hs : cfg.use_symbols = true → cfg.min_symbols = 0)
    (h : (generate_random_password cfg pf rf s).1 = GenResult.accepted p) :
    ∀ c ∈ p, c ∉ AMBIGUOUS_CHARS := by
  obtain ⟨-, hpool, -, -, t, hp⟩ := generate_accepted_spec cfg pf rf s p h
  obtain ⟨la, lb, lc, ld, lf, hperm, hla, -, hlb, -, hlc, -, hld, -, -, hmf⟩ :=
    buildCandidate_shape cfg (poolOf cfg) t hpool
  have ea : la = [] := by
    refine List.length_eq_zero.mp ?_
    rw [hla]
    split_ifs with h1
    · exact hl h1
    · rfl
  have eb : lb = [] := by
    refine List.length_eq_zero.mp ?_
    rw [hlb]
    split_ifs with h1
    · exact hu h1
    · rfl
  have ec : lc = [] := by
    refine List.length_eq_zero.mp ?_
    rw [hlc]
    split_ifs with h1
    · exact hd h1
    · rfl
  have ed : ld = [] := by
    refine List.length_eq_zero.mp ?_
    rw [hld]
    split_ifs with h1
    · exact hs h1
    · rfl
  intro c hc
  have hcf : c ∈ lf := by
    have := hperm.mem_iff.mp (by rw [← hp]; exact hc)
    simpa [ea, eb, ec, ed] using this
  exact poolOf_exclude cfg hex c (hmf c hcf)

/-- C3 witness: a concrete all-minimums-zero run with exclusion on; the first
character of its accepted password is not ambiguous. -/
theorem c3_witness : ('a' : Char) ∉ AMBIGUOUS_CHARS :=
  c3_amended cfgC3w none none streamZero ['a', 'a'] (by decide) (by decide) (by decide)
    (by decide) (by decide) (by decide) 'a' (by decide)

/-! ### Claim C4 -/

/-- Either the call fails one of the preconditions, or it runs the retry loop
with fuel 100 on an initial candidate. -/
theorem generate_run_form (cfg : GenConfig) (pf rf : Option (List Char → Bool))
    (s : RandState) :
    generate_random_password cfg pf rf s = (GenResult.failure, 0, 0) ∨
    generate_random_password cfg pf rf s =
      ((genLoop pf rf (buildCandidate cfg (poolOf cfg)) 100
          (buildCandidate cfg (poolOf cfg) s).1 (buildCandidate cfg (poolOf cfg) s).2).1,
        (genLoop pf rf (buildCandidate cfg (poolOf cfg)) 100
          (buildCandidate cfg (poolOf cfg) s).1 (buildCandidate cfg (poolOf cfg) s).2).2.1 + 1,
        (genLoop pf rf (buildCandidate cfg (poolOf cfg)) 100
          (buildCandidate cfg (poolOf cfg) s).1 (buildCandidate cfg (poolOf cfg) s).2).2.2) := by
  unfold generate_random_password
  by_cases h1 : (!anyClassEnabled cfg) = true
  · rw [if_pos h1]
    exact Or.inl rfl
  · rw [if_neg h1]
    by_cases h2 : (poolOf cfg).isEmpty = true
    · rw [if_pos h2]
      exact Or.inl rfl
    · rw [if_neg h2]
      by_cases h3 : ((totalMinRequired cfg : Int) > cfg.length)
      · rw [if_pos h3]
        exact Or.inl rfl
      · rw [if_neg h3]
        exact Or.inr rfl

/-- Either the passphrase call fails a precondition, or it runs the phrase
retry loop with fuel 100. -/
theorem passphrase_run_form (wl : List (List Char)) (wc : Int) (d : List Char)
    (cw an asym : Bool) (pf rf : Option (List Char → Bool)) (s : RandState) :
    generate_passphrase wl wc d cw an asym pf rf s = (GenResult.failure, 0, 0) ∨
    generate_passphrase wl wc d cw an asym pf rf s =
      phraseLoop pf rf (buildPhrase wl wc.toNat cw an asym) d 100 s [] := by
  unfold generate_passphrase
  by_cases h1 : wl.isEmpty = true
  · rw [if_pos h1]
    exact Or.inl rfl
  · rw [if_neg h1]
    by_cases h2 : wc ≤ 0
    · rw [if_pos h2]
      exact Or.inl rfl
    · rw [if_neg h2]
      exact Or.inr rfl

/-- C4 counterexample: with a pattern checker that rejects every candidate,
one call to `generate_random_password` produces 101 candidates, not at most
100: the loop validates and rejects 100 candidates, then builds one more,
returns it unvalidated (100 validator runs for 101 productions) with the
degraded signal. -/
theorem c4_counterexample :
    generate_random_password cfgC4 (some rejectAll) none streamZero =
      (GenResult.degraded ['a'], 101, 100) ∧ ¬(101 ≤ 100) := by decide

/-- C4 amended: a random-password call produces at most 101 candidates (one
initial build plus at most 100 in-loop rebuilds) and runs the validator at
most 100 times; a password returned as accepted passed all active checkers;
and the degraded return happens *exactly* when there were 101 productions and
100 validations — so the degraded candidate itself was never validated.  A
passphrase call produces at most 100 candidates, runs the validator after
every production (validation count equals production count), its accepted
return passed all active checkers, and on cap exhaustion it returns, with the
degraded signal, the last-produced candidate — a joined build output that was
itself validated and rejected — after exactly 100 productions. -/
theorem c4_amended (cfg : GenConfig) (pf rf : Option (List Char → Bool)) (s : RandState)
    (wl : List (List Char)) (wc : Int) (d : List Char) (cw an asym : Bool)
    (s2 : RandState) :
    ((generate_random_password cfg pf rf s).2.1 ≤ 101) ∧
    ((generate_random_password cfg pf rf s).2.2 ≤ 100) ∧
    (∀ p, (generate_random_password cfg pf rf s).1 = GenResult.accepted p →
      validOK pf rf p = true) ∧
    ((∃ p, (generate_random_password cfg pf rf s).1 = GenResult.degraded p) ↔
      ((generate_random_password cfg pf rf s).2.1 = 101 ∧
       (generate_random_password cfg pf rf s).2.2 = 100)) ∧
    ((generate_passphrase wl wc d cw an asym pf rf s2).2.1 ≤ 100) ∧
    ((generate_passphrase wl wc d cw an asym pf rf s2).2.2 =
      (generate_passphrase wl wc d cw an asym pf rf s2).2.1) ∧
    (∀ p, (generate_passphrase wl wc d cw an asym pf rf s2).1 = GenResult.accepted p →
      validOK pf rf p = true) ∧
    (∀ p, (generate_passphrase wl wc d cw an asym pf rf s2).1 = GenResult.degraded p →
      (generate_passphrase wl wc d cw an asym pf rf s2).2.1 = 100 ∧
      validOK pf rf p = false ∧
      ∃ t, p = List.intercalate d (buildPhrase wl wc.toNat cw an asym t).1) := by
  have hrand : ((generate_random_password cfg pf rf s).2.1 ≤ 101) ∧
      ((generate_random_password cfg pf rf s).2.2 ≤ 100) ∧
      (∀ p, (generate_random_password cfg pf rf s).1 = GenResult.accepted p →
        validOK pf rf p = true) ∧
      ((∃ p, (generate_random_password cfg pf rf s).1 = GenResult.degraded p) ↔
        ((generate_random_password cfg pf rf s).2.1 = 101 ∧
         (generate_random_password cfg pf rf s).2.2 = 100)) := by
    rcases generate_run_form cfg pf rf s with he | he <;> rw [he] <;> (try dsimp only)
    · refine ⟨by omega, by omega, ?_, ?_⟩
      · intro p hp
        simp at hp
      · constructor
        · rintro ⟨p, hp⟩
          simp at hp
        · rintro ⟨h1, -⟩
          exact absurd h1 (by omega)
    · obtain ⟨b1, b2, b3, b4, b5, b6⟩ := genLoop_bounds pf rf
        (buildCandidate cfg (poolOf cfg)) 100
        (buildCandidate cfg (poolOf cfg) s).1 (buildCandidate cfg (poolOf cfg) s).2
      refine ⟨by omega, by omega, b4, ?_⟩
      constructor
      · rintro ⟨p, hp⟩
        obtain ⟨e1, e2⟩ := b5 p hp
        exact ⟨by omega, by omega⟩
      · rintro ⟨h1, -⟩
        cases hr : (genLoop pf rf (buildCandidate cfg (poolOf cfg)) 100
            (buildCandidate cfg (poolOf cfg) s).1 (buildCandidate cfg (poolOf cfg) s).2).1 with
        | failure => exact absurd hr b3
        | accepted q =>
          have := b6 q hr
          exact absurd h1 (by omega)
        | degraded q => exact ⟨q, rfl⟩
  have hphrase : ((generate_passphrase wl wc d cw an asym pf rf s2).2.1 ≤ 100) ∧
      ((generate_passphrase wl wc d cw an asym pf rf s2).2.2 =
        (generate_passphrase wl wc d cw an asym pf rf s2).2.1) ∧
      (∀ p, (generate_passphrase wl wc d cw an asym pf rf s2).1 = GenResult.accepted p →
        validOK pf rf p = true) ∧
      (∀ p, (generate_passphrase wl wc d cw an asym pf rf s2).1 = GenResult.degraded p →
        (generate_passphrase wl wc d cw an asym pf rf s2).2.1 = 100 ∧
        validOK pf rf p = false ∧
        ∃ t, p = List.intercalate d (buildPhrase wl wc.toNat cw an asym t).1) := by
    rcases passphrase_run_form wl wc d cw an asym pf rf s2 with he | he <;>
      rw [he] <;> (try dsimp only)
    · refine ⟨by omega, rfl, ?_, ?_⟩
      · intro p hp
        simp at hp
      · intro p hp
        simp at hp
    · obtain ⟨pb1, pb2, -, pb4, pb5⟩ := phraseLoop_bounds pf rf
        (buildPhrase wl wc.toNat cw an asym) d 100 s2 []
      refine ⟨pb1, pb2, fun p hp => (pb4 p hp).1, ?_⟩
      intro p hp
      rw [show (100 : Nat) = 99 + 1 from rfl] at hp
      obtain ⟨hvf, t, ht⟩ := phraseLoop_degraded pf rf
        (buildPhrase wl wc.toNat cw an asym) d 99 s2 [] p hp
      exact ⟨pb5 p (by rw [show (100 : Nat) = 99 + 1 from rfl]; exact hp), hvf, t, ht⟩
  exact ⟨hrand.1, hrand.2.1, hrand.2.2.1, hrand.2.2.2, hphrase.1, hphrase.2.1,
    hphrase.2.2.1, hphrase.2.2.2⟩

/-- C4 witness: the amended bounds at the concrete all-reject run. -/
theorem c4_witness :
    (generate_random_password cfgC4 (some rejectAll) none streamZero).2.1 = 101 ∧
    (generate_random_password cfgC4 (some rejectAll) none streamZero).2.2 = 100 :=
  (c4_amended cfgC4 (some rejectAll) none streamZero [] 0 [] false false false
    streamZero).2.2.2.1.mp ⟨['a'], by decide⟩

/-! ### Claim C5 -/

/-- C5 counterexample: `length = 0` is non-positive, yet the call does not
fail: it returns an accepted empty password (the code has no length check; a
zero length passes `total_min_required > length` when the minima are zero). -/
theorem c5_counterexample :
    cfgC5.length ≤ 0 ∧
    (generate_random_password cfgC5 none none streamZero).1 = GenResult.accepted [] ∧
    generate_random_password cfgC5 none none streamZero ≠ (GenResult.failure, 0, 0) := by
  decide

/-- C5 amended: `generate_random_password` returns the immediate error value
(before any candidate production, production count 0) exactly when no class is
enabled, the pool is empty after exclusions, or the sum of minima exceeds the
length; consequently every *negative* length fails (but length 0 can succeed,
returning the empty password).  `generate_passphrase` returns the immediate
error value exactly when the wordlist is empty or the word count is
non-positive. -/
theorem c5_amended (cfg : GenConfig) (pf rf : Option (List Char → Bool)) (s : RandState)
    (wl : List (List Char)) (wc : Int) (d : List Char) (cw an asym : Bool)
    (pf2 rf2 : Option (List Char → Bool)) (s2 : RandState) :
    (generate_random_password cfg pf rf s = (GenResult.failure, 0, 0) ↔
      (anyClassEnabled cfg = false ∨ poolOf cfg = [] ∨
        cfg.length < (totalMinRequired cfg : Int))) ∧
    (cfg.length < 0 → generate_random_password cfg pf rf s = (GenResult.failure, 0, 0)) ∧
    (generate_passphrase wl wc d cw an asym pf2 rf2 s2 = (GenResult.failure, 0, 0) ↔
      (wl = [] ∨ wc ≤ 0)) := by
  refine ⟨generate_failure_iff cfg pf rf s, ?_, passphrase_failure_iff wl wc d cw an asym pf2 rf2 s2⟩
  intro hneg
  exact (generate_failure_iff cfg pf rf s).mpr (Or.inr (Or.inr (by omega)))

/-- C5 witness: a concrete negative length fails fast. -/
theorem c5_witness :
    generate_random_password cfgC5neg none none streamZero = (GenResult.failure, 0, 0) :=
  (c5_amended cfgC5neg none none streamZero [] 0 [] false false false none none
    streamZero).2.1 (by decide)

/-! ### Claim C6 -/

/-- C6 counterexample: a minimum requested for the disabled upper class is not
fully ignored: with `min_upper = 3 > length = 2` the call fails (the
precondition sums *all* minima, enabled or not), while the same configuration
without the minimum succeeds. -/
theorem c6_counterexample :
    cfgC6.use_upper = false ∧
    generate_random_password cfgC6 none none streamZero = (GenResult.failure, 0, 0) ∧
    (generate_random_password cfgC6z none none streamZero).1 =
      GenResult.accepted ['a', 'a'] := by decide

/-- Two configurations with the same class flags, exclusion, pool, length and
candidate builder produce identical calls whenever both pass the
sum-of-minima precondition. -/
theorem generate_congr (cfg₁ cfg₂ : GenConfig) (pf rf : Option (List Char → Bool))
    (s : RandState)
    (hany : anyClassEnabled cfg₁ = anyClassEnabled cfg₂)
    (hpool : poolOf cfg₁ = poolOf cfg₂)
    (hlen : cfg₁.length = cfg₂.length)
    (hbuild : buildCandidate cfg₁ = buildCandidate cfg₂)
    (hg1 : (totalMinRequired cfg₁ : Int) ≤ cfg₁.length)
    (hg2 : (totalMinRequired cfg₂ : Int) ≤ cfg₂.length) :
    generate_random_password cfg₁ pf rf s = generate_random_password cfg₂ pf rf s := by
  unfold generate_random_password
  rw [hbuild, hpool, hany, hlen]
  by_cases h1 : (!anyClassEnabled cfg₂) = true
  · rw [if_pos h1, if_pos h1]
  · rw [if_neg h1, if_neg h1]
    by_cases h2 : (poolOf cfg₂).isEmpty = true
    · rw [if_pos h2, if_pos h2]
    · rw [if_neg h2, if_neg h2]
      rw [if_neg (by omega), if_neg (by omega)]

/-- Every character of an accepted password comes from an enabled class:
the minimum blocks draw from enabled classes only, and the fill draws from
the pool of enabled classes. -/
theorem accepted_chars_enabled (cfg : GenConfig) (pf rf : Option (List Char → Bool))
    (s : RandState) (p : List Char)
    (h : (generate_random_password cfg pf rf s).1 = GenResult.accepted p) :
    ∀ c ∈ p,
      (cfg.use_lower = true ∧ c ∈ CHARS_LOWERCASE) ∨
      (cfg.use_upper = true ∧ c ∈ CHARS_UPPERCASE) ∨
      (cfg.use_digits = true ∧ c ∈ CHARS_DIGITS) ∨
      (cfg.use_symbols = true ∧ c ∈ CHARS_SYMBOLS) := by
  obtain ⟨-, hpool, -, -, t, hbuild⟩ := generate_accepted_spec cfg pf rf s p h
  obtain ⟨la, lb, lc, ld, lf, hperm, hla, hma, hlb, hmb, hlc, hmc, hld, hmd, -, hmf⟩ :=
    buildCandidate_shape cfg (poolOf cfg) t hpool
  intro c hc
  have hc2 : c ∈ la ++ lb ++ lc ++ ld ++ lf :=
    hperm.mem_iff.mp (by rw [← hbuild]; exact hc)
  simp only [List.append_assoc, List.mem_append] at hc2
  rcases hc2 with h1 | h1 | h1 | h1 | h1
  · have hflag : cfg.use_lower = true := by
      by_contra hnot
      have he : la = [] := List.length_eq_zero.mp (by rw [hla, if_neg hnot])
      rw [he] at h1
      simp at h1
    exact Or.inl ⟨hflag, hma c h1⟩
  · have hflag : cfg.use_upper = true := by
      by_contra hnot
      have he : lb = [] := List.length_eq_zero.mp (by rw [hlb, if_neg hnot])
      rw [he] at h1
      simp at h1
    exact Or.inr (Or.inl ⟨hflag, hmb c h1⟩)
  · have hflag : cfg.use_digits = true := by
      by_contra hnot
      have he : lc = [] := List.length_eq_zero.mp (by rw [hlc, if_neg hnot])
      rw [he] at h1
      simp at h1
    exact Or.inr (Or.inr (Or.inl ⟨hflag, hmc c h1⟩))
  · have hflag : cfg.use_symbols = true := by
      by_contra hnot
      have he : ld = [] := List.length_eq_zero.mp (by rw [hld, if_neg hnot])
      rw [he] at h1
      simp at h1
    exact Or.inr (Or.inr (Or.inr ⟨hflag, hmd c h1⟩))
  · exact mem_poolOf cfg c (hmf c h1)

/-- C6 amended: a minimum requested for *any* disabled class still counts
toward the `sum-of-minima ≤ length` precondition (and can thereby fail the
call), but is otherwise fully ignored: whenever that precondition holds the
call behaves identically to the same configuration with that minimum zeroed,
no characters are drawn for it, and an accepted password can never contain a
character of the disabled class at all.  Stated for each of the four classes. -/
theorem c6_amended (cfg : GenConfig) (pf rf : Option (List Char → Bool)) (s : RandState)
    (m : Nat) :
    (cfg.use_lower = false →
      (((totalMinRequired (setMinLower cfg m) : Int) ≤ cfg.length) →
        generate_random_password (setMinLower cfg m) pf rf s =
          generate_random_password (setMinLower cfg 0) pf rf s) ∧
      (∀ p, (generate_random_password cfg pf rf s).1 = GenResult.accepted p →
        ∀ c ∈ p, c ∉ CHARS_LOWERCASE)) ∧
    (cfg.use_upper = false →
      (((totalMinRequired (setMinUpper cfg m) : Int) ≤ cfg.length) →
        generate_random_password (setMinUpper cfg m) pf rf s =
          generate_random_password (setMinUpper cfg 0) pf rf s) ∧
      (∀ p, (generate_random_password cfg pf rf s).1 = GenResult.accepted p →
        ∀ c ∈ p, c ∉ CHARS_UPPERCASE)) ∧
    (cfg.use_digits = false →
      (((totalMinRequired (setMinDigits cfg m) : Int) ≤ cfg.length) →
        generate_random_password (setMinDigits cfg m) pf rf s =
          generate_random_password (setMinDigits cfg 0) pf rf s) ∧
      (∀ p, (generate_random_password cfg pf rf s).1 = GenResult.accepted p →
        ∀ c ∈ p, c ∉ CHARS_DIGITS)) ∧
    (cfg.use_symbols = false →
      (((totalMinRequired (setMinSymbols cfg m) : Int) ≤ cfg.length) →
        generate_random_password (setMinSymbols cfg m) pf rf s =
          generate_random_password (setMinSymbols cfg 0) pf rf s) ∧
      (∀ p, (generate_random_password cfg pf rf s).1 = GenResult.accepted p →
        ∀ c ∈ p, c ∉ CHARS_SYMBOLS)) := by
  refine ⟨fun huse => ⟨?_, ?_⟩, fun huse => ⟨?_, ?_⟩, fun huse => ⟨?_, ?_⟩,
    fun huse => ⟨?_, ?_⟩⟩
  · intro hm2
    have hb : buildCandidate (setMinLower cfg m) = buildCandidate (setMinLower cfg 0) := by
      funext pool t
      unfold buildCandidate minDraw setMinLower
      simp [huse]
    have htot : totalMinRequired (setMinLower cfg 0) ≤ totalMinRequired (setMinLower cfg m) := by
      simp [totalMinRequired, setMinLower]
    have hlm : (setMinLower cfg m).length = cfg.length := rfl
    have hl0 : (setMinLower cfg 0).length = cfg.length := rfl
    exact generate_congr _ _ pf rf s rfl rfl rfl hb (by rw [hlm]; exact hm2)
      (by rw [hl0]; omega)
  · intro p hp c hc
    rcases accepted_chars_enabled cfg pf rf s p hp c hc with
      ⟨hf, -⟩ | ⟨-, hx⟩ | ⟨-, hx⟩ | ⟨-, hx⟩
    · rw [huse] at hf
      cases hf
    · exact upper_not_lower c hx
    · exact digits_not_lower c hx
    · exact symbols_not_lower c hx
  · intro hm2
    have hb : buildCandidate (setMinUpper cfg m) = buildCandidate (setMinUpper cfg 0) := by
      funext pool t
      unfold buildCandidate minDraw setMinUpper
      simp [huse]
    have htot : totalMinRequired (setMinUpper cfg 0) ≤ totalMinRequired (setMinUpper cfg m) := by
      simp [totalMinRequired, setMinUpper]
    have hlm : (setMinUpper cfg m).length = cfg.length := rfl
    have hl0 : (setMinUpper cfg 0).length = cfg.length := rfl
    exact generate_congr _ _ pf rf s rfl rfl rfl hb (by rw [hlm]; exact hm2)
      (by rw [hl0]; omega)
  · intro p hp c hc
    rcases accepted_chars_enabled cfg pf rf s p hp c hc with
      ⟨-, hx⟩ | ⟨hf, -⟩ | ⟨-, hx⟩ | ⟨-, hx⟩
    · exact lower_not_upper c hx
    · rw [huse] at hf
      cases hf
    · exact digits_not_upper c hx
    · exact symbols_not_upper c hx
  · intro hm2
    have hb : buildCandidate (setMinDigits cfg m) = buildCandidate (setMinDigits cfg 0) := by
      funext pool t
      unfold buildCandidate minDraw setMinDigits
      simp [huse]
    have htot : totalMinRequired (setMinDigits cfg 0) ≤ totalMinRequired (setMinDigits cfg m) := by
      simp [totalMinRequired, setMinDigits]
    have hlm : (setMinDigits cfg m).length = cfg.length := rfl
    have hl0 : (setMinDigits cfg 0).length = cfg.length := rfl
    exact generate_congr _ _ pf rf s rfl rfl rfl hb (by rw [hlm]; exact hm2)
      (by rw [hl0]; omega)
  · intro p hp c hc
    rcases accepted_chars_enabled cfg pf rf s p hp c hc with
      ⟨-, hx⟩ | ⟨-, hx⟩ | ⟨hf, -⟩ | ⟨-, hx⟩
    · exact lower_not_digit c hx
    · exact upper_not_digit c hx
    · rw [huse] at hf
      cases hf
    · exact symbols_not_digit c hx
  · intro hm2
    have hb : buildCandidate (setMinSymbols cfg m) = buildCandidate (setMinSymbols cfg 0) := by
      funext pool t
      unfold buildCandidate minDraw setMinSymbols
      simp [huse]
    have htot : totalMinRequired (setMinSymbols cfg 0) ≤
        totalMinRequired (setMinSymbols cfg m) := by
      simp [totalMinRequired, setMinSymbols]
    have hlm : (setMinSymbols cfg m).length = cfg.length := rfl
    have hl0 : (setMinSymbols cfg 0).length = cfg.length := rfl
    exact generate_congr _ _ pf rf s rfl rfl rfl hb (by rw [hlm]; exact hm2)
      (by rw [hl0]; omega)
  · intro p hp c hc
    rcases accepted_chars_enabled cfg pf rf s p hp c hc with
      ⟨-, hx⟩ | ⟨-, hx⟩ | ⟨-, hx⟩ | ⟨hf, -⟩
    · exact lower_not_symbol c hx
    · exact upper_not_symbol c hx
    · exact digits_not_symbol c hx
    · rw [huse] at hf
      cases hf

/-- C6 witness: with the precondition satisfied, a disabled-class minimum of 5
leaves the call's behaviour unchanged. -/
theorem c6_witness :
    generate_random_password (setMinUpper cfgC6w 5) none none streamZero =
      generate_random_password (setMinUpper cfgC6w 0) none none streamZero :=
  ((c6_amended cfgC6w none none streamZero 5).2.1 rfl).1 (by decide)

/-! ### Claims C7 and C10 -/

/-- C7: for every string and threshold `k ≥ 1`,
`check_for_consecutive_repetitions` returns `true` exactly when some window of
`k + 1` consecutive positions holds identical characters (all equal to the
window's first character); with the default threshold 2 this rejects any
string containing 3 or more identical consecutive characters. -/
theorem c7_consecutive_repetitions (s : List Char) (k : Nat) (hk : 1 ≤ k) :
    check_for_consecutive_repetitions s (k : Int) = true ↔
      ∃ i, i + k < s.length ∧ ∀ j, j ≤ k → s.getD (i + j) ' ' = s.getD i ' ' := by
  have hneg : ¬((k : Int) < 1) := by omega
  have htn : ((k : Int)).toNat = k := by omega
  unfold check_for_consecutive_repetitions
  rw [if_neg hneg, htn]
  simp only [List.any_eq_true, List.mem_range, List.all_eq_true, beq_iff_eq]
  constructor
  · rintro ⟨i, hi, hall⟩
    exact ⟨i, by omega, fun j hj => hall j (by omega)⟩
  · rintro ⟨i, hi, hall⟩
    exact ⟨i, by omega, fun j hj => hall j (by omega)⟩

/-- C7 witness: the concrete string `aaa` at the default threshold 2. -/
theorem c7_witness :
    check_for_consecutive_repetitions ("aaa".toList) ((2 : Nat) : Int) = true ↔
      ∃ i, i + 2 < ("aaa".toList).length ∧
        ∀ j, j ≤ 2 → ("aaa".toList).getD (i + j) ' ' = ("aaa".toList).getD i ' ' :=
  c7_consecutive_repetitions ("aaa".toList) 2 (by decide)

/-- C10: a threshold below 1 silently disables the repetition checker: it
returns `false` on every string instead of raising or rejecting. -/
theorem c10_nonpositive_threshold (s : List Char) (m : Int) (hm : m < 1) :
    check_for_consecutive_repetitions s m = false := by
  unfold check_for_consecutive_repetitions
  rw [if_pos hm]

/-- C10 witness: even `aaaa` is not rejected at threshold 0. -/
theorem c10_witness : check_for_consecutive_repetitions ("aaaa".toList) 0 = false :=
  c10_nonpositive_threshold ("aaaa".toList) 0 (by decide)

/-! ### Claim C8 -/

theorem lower_toUpper_upper : ∀ c ∈ CHARS_LOWERCASE, Char.toUpper c ∈ CHARS_UPPERCASE := by
  decide

theorem lower_toLower_lower : ∀ c ∈ CHARS_LOWERCASE, Char.toLower c ∈ CHARS_LOWERCASE := by
  decide

theorem lower_ne_dash : ∀ c ∈ CHARS_LOWERCASE, c ≠ '-' := by decide

theorem upper_ne_dash : ∀ c ∈ CHARS_UPPERCASE, c ≠ '-' := by decide

theorem digit_ne_dash : ∀ c ∈ CHARS_DIGITS, c ≠ '-' := by decide

/-- A wordlist word (all-lowercase), optionally capitalized, never contains
the `-` delimiter. -/
theorem word_no_dash (w : List Char) (hw : ∀ c ∈ w, c ∈ CHARS_LOWERCASE) (cw : Bool) :
    ('-' : Char) ∉ (if cw then pyCapitalize w else w) := by
  cases cw
  · simp only [if_neg (by simp : ¬(false = true))]
    intro hmem
    exact lower_ne_dash '-' (hw '-' hmem) rfl
  · simp only [if_pos rfl]
    match w with
    | [] => simp [pyCapitalize]
    | c :: cs =>
      intro hmem
      rcases List.mem_cons.mp hmem with hmem | hmem
      · have hc := lower_toUpper_upper c (hw c (List.mem_cons_self c cs))
        rw [← hmem] at hc
        exact upper_ne_dash _ hc rfl
      · obtain ⟨x, hx, hfx⟩ := List.mem_map.mp hmem
        have hx2 := lower_toLower_lower x (hw x (List.mem_cons_of_mem c hx))
        rw [hfx] at hx2
        exact lower_ne_dash _ hx2 rfl

/-- A wordlist word (non-empty, all-lowercase), optionally capitalized, is
never a single-digit segment. -/
theorem word_not_single_digit (w : List Char) (hne : w ≠ [])
    (hw : ∀ c ∈ w, c ∈ CHARS_LOWERCASE) (cw : Bool) :
    isSingleDigit (if cw then pyCapitalize w else w) = false := by
  match w with
  | [] => exact absurd rfl hne
  | [c] =>
    have hcl := hw c (List.mem_cons_self c [])
    cases cw
    · simp only [if_neg (by simp : ¬(false = true)), isSingleDigit]
      simpa using lower_not_digit c hcl
    · simp only [if_pos rfl, pyCapitalize, List.map_nil, isSingleDigit]
      simpa using upper_not_digit _ (lower_toUpper_upper c hcl)
  | c :: c2 :: rest =>
    cases cw
    · simp [isSingleDigit]
    · simp [pyCapitalize, isSingleDigit]

/-- With both checkers disabled the very first passphrase attempt is accepted. -/
theorem generate_passphrase_nochecker (wl : List (List Char)) (wc : Int) (d : List Char)
    (cw an asym : Bool) (s : RandState) (hwl : wl ≠ []) (hwc : 0 < wc) :
    generate_passphrase wl wc d cw an asym none none s =
      (GenResult.accepted (List.intercalate d (buildPhrase wl wc.toNat cw an asym s).1),
        1, 1) := by
  unfold generate_passphrase
  rw [if_neg (by simp [hwl]), if_neg (by omega)]
  rw [show (100 : Nat) = 99 + 1 from rfl]
  simp [phraseLoop, validOK, rejects]

/-- Without augmentation the phrase is exactly the optionally-capitalized
drawn words. -/
theorem buildPhrase_fst_no_aug (wl : List (List Char)) (n : Nat) (cw : Bool) (s : RandState) :
    (buildPhrase wl n cw false false s).1 =
      (if cw then (drawN wl n s).1.map pyCapitalize else (drawN wl n s).1) := rfl

/-- With `add_number` the phrase is a shuffle of the optionally-capitalized
drawn words with one single-digit word appended. -/
theorem buildPhrase_fst_add_number (wl : List (List Char)) (n : Nat) (cw : Bool)
    (s : RandState) :
    (buildPhrase wl n cw true false s).1 =
      (shuffle ((if cw then (drawN wl n s).1.map pyCapitalize else (drawN wl n s).1) ++
          [[(choice CHARS_DIGITS (drawN wl n s).2).1]])
        (choice CHARS_DIGITS (drawN wl n s).2).2).1 := rfl

/-- The drawn (optionally capitalized) words: count and provenance. -/
theorem drawn_words_spec (wl : List (List Char)) (n : Nat) (cw : Bool) (s : RandState)
    (hwl : wl ≠ []) :
    ((if cw then (drawN wl n s).1.map pyCapitalize else (drawN wl n s).1)).length = n ∧
    ∀ w' ∈ (if cw then (drawN wl n s).1.map pyCapitalize else (drawN wl n s).1),
      ∃ w ∈ wl, w' = (if cw then pyCapitalize w else w) := by
  cases cw
  · simp only [if_neg (by simp : ¬(false = true))]
    refine ⟨drawN_length wl n s, ?_⟩
    intro w' hw'
    exact ⟨w', drawN_mem wl hwl n s w' hw', rfl⟩
  · simp only [if_pos rfl]
    refine ⟨by simp [drawN_length wl n s], ?_⟩
    intro w' hw'
    obtain ⟨w, hwmem, hweq⟩ := List.mem_map.mp hw'
    exact ⟨w, drawN_mem wl hwl n s w hwmem, hweq.symm⟩

/-- C8: for a word source of non-empty all-lowercase words (hence words never
containing the delimiter), `generate_passphrase` with `word_count = 6` and
delimiter `-` and no augmentation returns an accepted string of exactly 6
delimiter-separated segments, each an (optionally capitalized) word of the
word source; with `add_number` it returns exactly 7 segments of which exactly
one is a single digit. -/
theorem c8_passphrase_segments (wl : List (List Char)) (cw : Bool) (s s2 : RandState)
    (hwl : wl ≠ [])
    (hgood : ∀ w ∈ wl, w ≠ [] ∧ ∀ c ∈ w, c ∈ CHARS_LOWERCASE) :
    (∃ out, (generate_passphrase wl 6 ['-'] cw false false none none s).1 =
        GenResult.accepted out ∧
      (out.splitOn '-').length = 6 ∧
      (∀ seg ∈ out.splitOn '-', ∃ w ∈ wl, seg = (if cw then pyCapitalize w else w))) ∧
    (∃ out, (generate_passphrase wl 6 ['-'] cw true false none none s2).1 =
        GenResult.accepted out ∧
      (out.splitOn '-').length = 7 ∧
      (out.splitOn '-').countP isSingleDigit = 1) := by
  have hseg : ∀ w ∈ wl, ∀ cw2 : Bool,
      ('-' : Char) ∉ (if cw2 then pyCapitalize w else w) ∧
      isSingleDigit (if cw2 then pyCapitalize w else w) = false := by
    intro w hw cw2
    exact ⟨word_no_dash w (hgood w hw).2 cw2,
      word_not_single_digit w (hgood w hw).1 (hgood w hw).2 cw2⟩
  constructor
  · -- no augmentation
    have hrun := generate_passphrase_nochecker wl 6 ['-'] cw false false s hwl (by norm_num)
    refine ⟨List.intercalate ['-'] (buildPhrase wl (6 : Int).toNat cw false false s).1,
      by rw [hrun], ?_, ?_⟩ <;>
      rw [show ((6 : Int)).toNat = 6 from rfl, buildPhrase_fst_no_aug]
    all_goals
      obtain ⟨hlen, hmem⟩ := drawn_words_spec wl 6 cw s hwl
    all_goals
      have hsplit : (List.intercalate ['-']
          (if cw then (drawN wl 6 s).1.map pyCapitalize else (drawN wl 6 s).1)).splitOn '-' =
          (if cw then (drawN wl 6 s).1.map pyCapitalize else (drawN wl 6 s).1) := by
        refine List.splitOn_intercalate _ '-' ?_ ?_
        · intro l hl
          obtain ⟨w, hwmem, hweq⟩ := hmem l hl
          rw [hweq]
          exact (hseg w hwmem cw).1
        · intro hnil
          rw [hnil] at hlen
          simp at hlen
    · rw [hsplit, hlen]
    · rw [hsplit]
      exact hmem
  · -- add_number
    have hrun := generate_passphrase_nochecker wl 6 ['-'] cw true false s2 hwl (by norm_num)
    refine ⟨List.intercalate ['-'] (buildPhrase wl (6 : Int).toNat cw true false s2).1,
      by rw [hrun], ?_⟩
    rw [show ((6 : Int)).toNat = 6 from rfl, buildPhrase_fst_add_number]
    obtain ⟨hlen, hmem⟩ := drawn_words_spec wl 6 cw s2 hwl
    set ws := (if cw then (drawN wl 6 s2).1.map pyCapitalize else (drawN wl 6 s2).1) with hws
    set dg := (choice CHARS_DIGITS (drawN wl 6 s2).2).1 with hdg
    have hdgmem : dg ∈ CHARS_DIGITS := choice_mem CHARS_DIGITS _ (by decide)
    have hperm : List.Perm ((shuffle (ws ++ [[dg]])
        (choice CHARS_DIGITS (drawN wl 6 s2).2).2).1) (ws ++ [[dg]]) :=
      shuffle_perm _ _
    have hsplit : (List.intercalate ['-'] ((shuffle (ws ++ [[dg]])
        (choice CHARS_DIGITS (drawN wl 6 s2).2).2).1)).splitOn '-' =
        (shuffle (ws ++ [[dg]]) (choice CHARS_DIGITS (drawN wl 6 s2).2).2).1 := by
      refine List.splitOn_intercalate _ '-' ?_ ?_
      · intro l hl
        have hl2 : l ∈ ws ++ [[dg]] := hperm.mem_iff.mp hl
        rcases List.mem_append.mp hl2 with hl3 | hl3
        · obtain ⟨w, hwmem, hweq⟩ := hmem l hl3
          rw [hweq]
          exact (hseg w hwmem cw).1
        · have : l = [dg] := by simpa using hl3
          rw [this]
          intro hdash
          have : ('-' : Char) = dg := by simpa using hdash
          exact digit_ne_dash dg hdgmem (by rw [← this] at hdgmem; exact (this ▸ rfl))
      · intro hnil
        have := hperm.length_eq
        rw [hnil] at this
        simp [hws] at this
    rw [hsplit]
    constructor
    · rw [hperm.length_eq]
      simp [hlen]
    · rw [hperm.countP_eq]
      rw [List.countP_append]
      have h0 : ws.countP isSingleDigit = 0 := by
        rw [List.countP_eq_zero]
        intro seg hsegmem
        obtain ⟨w, hwmem, hweq⟩ := hmem seg hsegmem
        rw [hweq]
        simp [(hseg w hwmem cw).2]
      have h1 : ([[dg]] : List (List Char)).countP isSingleDigit = 1 := by
        have : isSingleDigit [dg] = true := by
          simp [isSingleDigit]
          exact hdgmem
        simp [List.countP, List.countP.go, this]
      omega

/-! ### Claim C9 -/

theorem estimated_eq_presentCatSum (p : List Char) :
    estimated_charset_size p = presentCatSum p := by
  unfold estimated_charset_size presentCatSum
  by_cases h1 : CharCat.lowercase ∈ p.map classify <;>
  by_cases h2 : CharCat.uppercase ∈ p.map classify <;>
  by_cases h3 : CharCat.digit ∈ p.map classify <;>
  by_cases h4 : CharCat.symbol ∈ p.map classify <;>
  by_cases h5 : CharCat.other ∈ p.map classify <;>
  simp [h1, h2, h3, h4, h5, catSize, -List.mem_map]

theorem catSize_le_estimated (t : CharCat) (p : List Char) (h : t ∈ p.map classify) :
    catSize t ≤ estimated_charset_size p := by
  unfold estimated_charset_size
  cases t <;> simp only [catSize, if_pos h] <;> omega

theorem ten_le_catSize (t : CharCat) : 10 ≤ catSize t := by
  cases t <;> simp [catSize]

theorem ten_le_estimated (p : List Char) (hp : p ≠ []) :
    10 ≤ estimated_charset_size p := by
  obtain ⟨c, rest, rfl⟩ := List.exists_cons_of_ne_nil hp
  have hmem : classify c ∈ (c :: rest).map classify :=
    List.mem_map_of_mem classify (List.mem_cons_self c rest)
  exact le_trans (ten_le_catSize (classify c)) (catSize_le_estimated _ _ hmem)

/-- C9: for every non-empty password, `calculate_entropy` equals
`length × log2(S)` where `S` sums the fixed sizes 26/26/10/32/50 over exactly
the classes present in the password; the empty password has entropy 0; and for
a fixed class mix the entropy is monotonically non-decreasing in length. -/
theorem c9_entropy :
    (∀ p : List Char, p ≠ [] →
        calculate_entropy p = (p.length : ℝ) * Real.logb 2 (presentCatSum p)) ∧
    calculate_entropy [] = 0 ∧
    (∀ p q : List Char,
        (∀ t : CharCat, t ∈ p.map classify ↔ t ∈ q.map classify) →
        p.length ≤ q.length → calculate_entropy p ≤ calculate_entropy q) := by
  have hmain : ∀ p : List Char, p ≠ [] →
      calculate_entropy p = (p.length : ℝ) * Real.logb 2 (estimated_charset_size p) := by
    intro p hp
    unfold calculate_entropy
    rw [if_neg hp, if_neg (by have := ten_le_estimated p hp; omega)]
  refine ⟨?_, ?_, ?_⟩
  · intro p hp
    rw [hmain p hp, estimated_eq_presentCatSum]
  · simp [calculate_entropy]
  · intro p q hmix hlen
    by_cases hp : p = []
    · subst hp
      have hqm : q.map classify = [] := by
        rw [List.eq_nil_iff_forall_not_mem]
        intro t ht
        have h2 := (hmix t).mpr ht
        simp at h2
      have hq : q = [] := List.map_eq_nil_iff.mp hqm
      subst hq
      simp [calculate_entropy]
    · have hq : q ≠ [] := by
        intro hqe
        subst hqe
        have h0 : p.length = 0 := by simpa using hlen
        exact hp (List.length_eq_zero.mp h0)
      have hsz : estimated_charset_size p = estimated_charset_size q := by
        unfold estimated_charset_size
        simp only [hmix CharCat.lowercase, hmix CharCat.uppercase, hmix CharCat.digit,
          hmix CharCat.symbol, hmix CharCat.other]
      rw [hmain p hp, hmain q hq, hsz]
      have hlog : 0 ≤ Real.logb 2 (estimated_charset_size q) := by
        refine Real.logb_nonneg (by norm_num) ?_
        have h10 := ten_le_estimated q hq
        exact_mod_cast (by omega : 1 ≤ estimated_charset_size q)
      exact mul_le_mul_of_nonneg_right (by exact_mod_cast hlen) hlog

/-- C9 witness: concrete lists with the same class mix. -/
theorem c9_witness : calculate_entropy ['a'] ≤ calculate_entropy ['a', 'b'] :=
  c9_entropy.2.2 ['a'] ['a', 'b'] (by decide) (by decide)

/-- C8 witness: a concrete two-word word source. -/
theorem c8_witness :
    (∃ out, (generate_passphrase wlW 6 ['-'] false false false none none streamZero).1 =
        GenResult.accepted out ∧
      (out.splitOn '-').length = 6 ∧
      (∀ seg ∈ out.splitOn '-', ∃ w ∈ wlW, seg = (if false then pyCapitalize w else w))) ∧
    (∃ out, (generate_passphrase wlW 6 ['-'] false true false none none streamZero).1 =
        GenResult.accepted out ∧
      (out.splitOn '-').length = 7 ∧
      (out.splitOn '-').countP isSingleDigit = 1) :=
  c8_passphrase_segments wlW false streamZero streamZero (by decide) (by decide)

end PG
